import Mathlib

/-!
# Verification of `docio` (`src/docio/__init__.py`)

Shallow embedding of the `docio` document I/O library and proofs about its
extract/swap/save operations.

The library has three adapters sharing one contract:

* `TextIO` — whole file is one text segment.
* `OfficeOpenXMLSpreadsheetIO` — operates on the `xl/sharedStrings.xml` part,
  reading and writing the `//ns:t` elements via XPath.
* `XMLIO` — a recursive pre-order traversal over an lxml element tree,
  visiting each node's own text, then its children, then its tail text.

Elements are modelled as a rose tree with `tag`, attributes, optional own
text, children, and optional tail text — exactly the fields of an lxml
`_Element` that the code reads or writes.  `Option String` models Python's
`Optional[str]`: lxml yields `None` (here `none`) for absent text; a parsed
document never stores an empty-string text node (lxml parses `<t></t>` with
`text is None`).  Python exceptions (`IndexError` from `texts.pop()` /
`texts[0]`) are modelled with `Except`, whose error payload carries the
partially mutated state the in-place Python mutation leaves behind when the
exception propagates.
-/

set_option maxHeartbeats 1000000

namespace Docio

/-- Characters stripped by Python `str.strip()` (the ASCII/Latin-1 whitespace
set used by `str.isspace`). -/
def pyIsSpace (c : Char) : Bool :=
  c = ' ' || c = '\t' || c = '\n' || c = '\r' ||
  c = Char.ofNat 11 || c = Char.ofNat 12 ||
  c = Char.ofNat 28 || c = Char.ofNat 29 || c = Char.ofNat 30 ||
  c = Char.ofNat 31 || c = Char.ofNat 133

/-- `s.strip() == ''` in Python: every character of `s` is whitespace
(in particular true for the empty string). -/
def stripEmpty (s : String) : Bool :=
  s.toList.all pyIsSpace

/-- The guard `text is not None and text.strip() != ''` used by both
`XMLIO.extract` and `XMLIO.swap`: a slot is eligible iff its content is
present and not purely whitespace. -/
def eligible : Option String → Bool
  | none => false
  | some s => !stripEmpty s

mutual
/-- An lxml `_Element`: tag, attributes, own text (`.text`), ordered
children (`.iterchildren()`), and tail text (`.tail`). -/
inductive Element : Type where
  | mk (tag : String) (attrs : List (String × String)) (text : Option String)
       (children : Siblings) (tail : Option String)

/-- An ordered list of sibling elements (the children of a node). -/
inductive Siblings : Type where
  | nil : Siblings
  | cons : Element → Siblings → Siblings
end

/-- Helper of `XMLIO.extract`: `append_if_not_only_whitespace(text, texts)`
appends `text` to the accumulator when it is present and not purely
whitespace. -/
def appendIfNotOnlyWhitespace (text : Option String) (texts : List String) :
    List String :=
  match text with
  | some s => if stripEmpty s then texts else texts ++ [s]
  | none => texts

mutual
/-- Inner `extract(element, texts)` of `XMLIO.extract`: own text, then each
child in document order, then the tail text. -/
def extractEl : Element → List String → List String
  | .mk _ _ t cs tl, acc =>
      appendIfNotOnlyWhitespace tl (extractSib cs (appendIfNotOnlyWhitespace t acc))

/-- The `for child_element in element.iterchildren()` loop of the inner
`extract`, threading the accumulator left to right. -/
def extractSib : Siblings → List String → List String
  | .nil, acc => acc
  | .cons c cs, acc => extractSib cs (extractEl c acc)
end

/-- `XMLIO.extract(self)`: run the inner extract on the root with an empty
accumulator. -/
def XMLextract (root : Element) : List String :=
  extractEl root []

/-- Python `list.pop()`: remove and return the LAST element; `none` models
the `IndexError` raised on an empty list. -/
def popLast : List (Option String) → Option (Option String × List (Option String))
  | [] => none
  | [a] => some (a, [])
  | a :: b :: rest =>
      match popLast (b :: rest) with
      | none => none
      | some (x, r) => some (x, a :: r)

/-- Helper `swap_if_valid(element, property, texts)` of `XMLIO.swap`: if the
slot's current content is eligible, pop the next value from the end of the
stack (raising `IndexError` — modelled as `Except.error` — when the stack is
empty) and overwrite the slot unless the popped value is `None`.  Returns the
(possibly updated) slot content and the remaining stack. -/
def swapIfValid (t : Option String) (stk : List (Option String)) :
    Except Unit (Option String × List (Option String)) :=
  match t with
  | some s =>
      if stripEmpty s then Except.ok (some s, stk)
      else
        match popLast stk with
        | none => Except.error ()
        | some (newText, stk') =>
            match newText with
            | some ns => Except.ok (some ns, stk')
            | none => Except.ok (some s, stk')
  | none => Except.ok (none, stk)

mutual
/-- Inner `swap(element, texts)` of `XMLIO.swap`: own text slot, then the
children, then the tail slot.  On `IndexError` the error payload is the
element as the in-place mutation left it (slots before the failure updated,
the rest untouched), matching Python's propagating exception. -/
def swapEl : Element → List (Option String) →
    Except Element (Element × List (Option String))
  | .mk tg ats t cs tl, stk =>
      match swapIfValid t stk with
      | .error _ => .error (.mk tg ats t cs tl)
      | .ok (t', stk₁) =>
          match swapSib cs stk₁ with
          | .error cs' => .error (.mk tg ats t' cs' tl)
          | .ok (cs', stk₂) =>
              match swapIfValid tl stk₂ with
              | .error _ => .error (.mk tg ats t' cs' tl)
              | .ok (tl', stk₃) => .ok (.mk tg ats t' cs' tl', stk₃)

/-- The children loop of the inner `swap`, threading the stack; on an
exception the already-processed prefix keeps its mutations and the remaining
siblings are untouched. -/
def swapSib : Siblings → List (Option String) →
    Except Siblings (Siblings × List (Option String))
  | .nil, stk => .ok (.nil, stk)
  | .cons c cs, stk =>
      match swapEl c stk with
      | .error c' => .error (.cons c' cs)
      | .ok (c', stk₁) =>
          match swapSib cs stk₁ with
          | .error cs' => .error (.cons c' cs')
          | .ok (cs', stk₂) => .ok (.cons c' cs', stk₂)
end

/-- `XMLIO.swap(self, texts)`: `swap(self.etree.getroot(), list(reversed(texts)))`.
`Except.error e` means the call raised `IndexError` leaving the tree in
state `e`; `Except.ok (e, stk)` means it returned normally with tree state
`e` and unconsumed stack `stk`. -/
def XMLswap (root : Element) (texts : List (Option String)) :
    Except Element (Element × List (Option String)) :=
  swapEl root texts.reverse

/-- The tree state after `XMLIO.swap` returns or raises: Python mutates
`self.etree` in place, so the tree reflects all slots processed before any
`IndexError`. -/
def XMLswapTree (root : Element) (texts : List (Option String)) : Element :=
  match XMLswap root texts with
  | .error e => e
  | .ok (e, _) => e

/-! ## Reference (front-consuming) formulation of the tree swap

`XMLIO.swap` reverses `texts` once and pops from the END of the reversed
list at each eligible slot.  The definitions below consume the sequence from
the FRONT instead; `swapEl_rev` below proves both agree, which is the
"reverse once + pop from the end = forward document order" part of the
design. -/

/-- Front-consuming counterpart of `swapIfValid`: take the head of the
sequence instead of popping the last entry of the reversed stack. -/
def swapIfValidF (t : Option String) (ts : List (Option String)) :
    Except Unit (Option String × List (Option String)) :=
  match t with
  | some s =>
      if stripEmpty s then Except.ok (some s, ts)
      else
        match ts with
        | [] => Except.error ()
        | newText :: ts' =>
            match newText with
            | some ns => Except.ok (some ns, ts')
            | none => Except.ok (some s, ts')
  | none => Except.ok (none, ts)

mutual
/-- Front-consuming counterpart of `swapEl`. -/
def swapElF : Element → List (Option String) →
    Except Element (Element × List (Option String))
  | .mk tg ats t cs tl, ts =>
      match swapIfValidF t ts with
      | .error _ => .error (.mk tg ats t cs tl)
      | .ok (t', ts₁) =>
          match swapSibF cs ts₁ with
          | .error cs' => .error (.mk tg ats t' cs' tl)
          | .ok (cs', ts₂) =>
              match swapIfValidF tl ts₂ with
              | .error _ => .error (.mk tg ats t' cs' tl)
              | .ok (tl', ts₃) => .ok (.mk tg ats t' cs' tl', ts₃)

/-- Front-consuming counterpart of `swapSib`. -/
def swapSibF : Siblings → List (Option String) →
    Except Siblings (Siblings × List (Option String))
  | .nil, ts => .ok (.nil, ts)
  | .cons c cs, ts =>
      match swapElF c ts with
      | .error c' => .error (.cons c' cs)
      | .ok (c', ts₁) =>
          match swapSibF cs ts₁ with
          | .error cs' => .error (.cons c' cs')
          | .ok (cs', ts₂) => .ok (.cons c' cs', ts₂)
end

/-- Reverse the unconsumed sequence inside a swap result (used to relate the
stack-based and front-consuming formulations). -/
def revStack {α : Type} (r : Except α (α × List (Option String))) :
    Except α (α × List (Option String)) :=
  match r with
  | .error e => .error e
  | .ok (e, l) => .ok (e, l.reverse)

/-! ## Flat slot-list view of a tree

`allSlotsEl` lists every text slot of a tree — the own text and the tail
text of every node — in the exact order the recursive `extract`/`swap`
traversal visits them.  It is the instrument the theorems use to speak about
"the i-th slot in document order". -/

mutual
/-- All text slots of an element in traversal order: own text, then the
slots of the children, then the tail text. -/
def allSlotsEl : Element → List (Option String)
  | .mk _ _ t cs tl => t :: (allSlotsSib cs ++ [tl])

/-- All text slots of a sibling list in traversal order. -/
def allSlotsSib : Siblings → List (Option String)
  | .nil => []
  | .cons c cs => allSlotsEl c ++ allSlotsSib cs
end

/-- Keep the content of the eligible slots only (what `extract` collects). -/
def eligFilter (slots : List (Option String)) : List String :=
  slots.filterMap (fun t =>
    match t with
    | some s => if stripEmpty s then none else some s
    | none => none)

/-- Number of eligible slots in a slot list. -/
def eligCount (slots : List (Option String)) : Nat :=
  (slots.filter eligible).length

/-- Specification of the swap pass over the flat slot list: walk the slots
in order; at each eligible slot consume the next value of `ts` (an exhausted
`ts` models the propagating `IndexError`: from there on every slot keeps its
original content), overwriting the slot unless the value is `none`;
ineligible slots consume nothing and are never written. -/
def updateSlots (slots : List (Option String)) (ts : List (Option String)) :
    List (Option String) :=
  match slots with
  | [] => []
  | t :: rest =>
      if eligible t then
        match ts with
        | [] => t :: rest
        | newText :: ts' =>
            (match newText with
             | some ns => some ns
             | none => t) :: updateSlots rest ts'
      else t :: updateSlots rest ts

mutual
/-- Erase every text slot of an element, keeping tag, attributes and the
child structure: two elements with equal erasures differ at most in their
textual content. -/
def eraseTextEl : Element → Element
  | .mk tg ats _ cs _ => .mk tg ats none (eraseTextSib cs) none

/-- Erase every text slot of a sibling list. -/
def eraseTextSib : Siblings → Siblings
  | .nil => .nil
  | .cons c cs => .cons (eraseTextEl c) (eraseTextSib cs)
end

/-! ## `OfficeOpenXMLSpreadsheetIO`

The adapter parses `xl/sharedStrings.xml` into an element tree and works on
it through two XPath queries over the same `Element` type as above:
`//ns:t` (the shared-string entry elements, in document order) and
`//ns:t/text()` (their text nodes).  An entry without content (`<t/>`) has
`text = none` and contributes no text node. -/

/-- The namespaced tag lxml uses for a shared-string text entry. -/
def tTag : String :=
  "\x7bhttp://schemas.openxmlformats.org/spreadsheetml/2006/main\x7dt"

mutual
/-- `//ns:t` as seen by `swap`: the `.text` content of every `t`-tagged
element, in document (pre-order) order. -/
def tTextsEl : Element → List (Option String)
  | .mk tg _ t cs _ => (if tg = tTag then [t] else []) ++ tTextsSib cs

/-- `//ns:t` over a sibling list. -/
def tTextsSib : Siblings → List (Option String)
  | .nil => []
  | .cons c cs => tTextsEl c ++ tTextsSib cs
end

mutual
/-- `//ns:t/text()` as evaluated by `OfficeOpenXMLSpreadsheetIO.extract`:
the text nodes of the `t`-tagged elements in document order; an element
whose `.text` is absent contributes nothing. -/
def xpathTTextEl : Element → List String
  | .mk tg _ t cs _ =>
      (if tg = tTag then
         match t with
         | some s => [s]
         | none => []
       else []) ++ xpathTTextSib cs

/-- `//ns:t/text()` over a sibling list. -/
def xpathTTextSib : Siblings → List String
  | .nil => []
  | .cons c cs => xpathTTextEl c ++ xpathTTextSib cs
end

/-- `OfficeOpenXMLSpreadsheetIO.extract(self)`. -/
def OOXMLextract (tree : Element) : List String :=
  xpathTTextEl tree

mutual
/-- `OfficeOpenXMLSpreadsheetIO.swap(self, texts)`:
`for t, new_text in zip(self.etree.xpath('//ns:t'), texts)` — each `t`
element is paired positionally with the next value of `texts` (`zip` stops
when `texts` is exhausted, leaving later entries untouched) and its text is
overwritten unless the value is `None`.  Returns the updated element and the
values not yet consumed. -/
def ooswapEl : Element → List (Option String) →
    Element × List (Option String)
  | .mk tg ats t cs tl, ts =>
      let own : Option String × List (Option String) :=
        if tg = tTag then
          match ts with
          | [] => (t, [])
          | newText :: ts' =>
              ((match newText with
                | some ns => some ns
                | none => t), ts')
        else (t, ts)
      let rest := ooswapSib cs own.2
      (.mk tg ats own.1 rest.1 tl, rest.2)

/-- The `zip` pairing of `ooswapEl` over a sibling list. -/
def ooswapSib : Siblings → List (Option String) →
    Siblings × List (Option String)
  | .nil, ts => (.nil, ts)
  | .cons c cs, ts =>
      let r := ooswapEl c ts
      let r' := ooswapSib cs r.2
      (.cons r.1 r'.1, r'.2)
end

/-- The shared-strings tree after `OfficeOpenXMLSpreadsheetIO.swap`. -/
def OOXMLswapTree (tree : Element) (texts : List (Option String)) : Element :=
  (ooswapEl tree texts).1

/-- Pointwise zip specification of the flat spreadsheet swap: entry `i` of
`olds` becomes `ts[i]` when `i < len ts` and `ts[i]` is non-null, otherwise
keeps its value; entries past `len ts` are untouched. -/
def zipOverlay (olds : List (Option String)) (ts : List (Option String)) :
    List (Option String) :=
  match olds, ts with
  | [], _ => []
  | olds, [] => olds
  | o :: os, newText :: ts' =>
      (match newText with
       | some ns => some ns
       | none => o) :: zipOverlay os ts'

mutual
/-- Erase the text of every `t`-tagged element (the only slots the
spreadsheet swap may write), keeping everything else: tags, attributes,
tails, non-entry texts and the child structure. -/
def eraseTTextEl : Element → Element
  | .mk tg ats t cs tl =>
      .mk tg ats (if tg = tTag then none else t) (eraseTTextSib cs) tl

/-- `eraseTTextEl` over a sibling list. -/
def eraseTTextSib : Siblings → Siblings
  | .nil => .nil
  | .cons c cs => .cons (eraseTTextEl c) (eraseTTextSib cs)
end

/-! ## `TextIO` -/

namespace TextAdapter

/-- `TextIO.extract(self)`: the whole file content is the single segment. -/
def extract (text : String) : List String :=
  [text]

/-- `TextAdapter.swap(self, texts)`: `self.text = texts[0]`.  The old content
(first argument) is discarded unconditionally; `texts[0]` on an empty list
raises `IndexError` (`Except.error`), leaving the old content in place.
The stored value may be `None` when `texts[0]` is. -/
def swap (text : Option String) (texts : List (Option String)) :
    Except Unit (Option String) :=
  match texts[0]? with
  | none => Except.error ()
  | some v => Except.ok v

end TextAdapter

/-! ## Filesystem model and `save`

`IOBase._make_parent_directory` and `TextIO.save` call the `os` collaborators
`os.path.dirname`, `os.path.exists`, `os.makedirs` and `open(..., 'w')`,
modelled here over relative slash-separated paths:
`os.path.dirname` drops the last `/`-component (yielding `""` when the path
has no directory component), `os.path.exists("")` is `False`, and
`os.makedirs("")` raises `FileNotFoundError`. -/

/-- A filesystem: the directories that exist and the files with their
content. -/
structure FS where
  dirs : List String
  files : List (String × String)

/-- `os.path.exists` over the model. -/
def FS.pathExists (fs : FS) (p : String) : Bool :=
  fs.dirs.contains p || fs.files.any (fun f => f.1 = p)

/-- `os.path.dirname` for relative paths (no repeated slashes): everything
before the last `/`, the empty string when the path has no `/`. -/
def dirname (p : String) : String :=
  let cs := p.toList
  if cs.contains '/' then
    String.mk ((cs.reverse.dropWhile (fun c => c ≠ '/')).drop 1).reverse
  else ""

/-- `os.makedirs(d)`: raises `FileNotFoundError` on the empty path,
otherwise creates the directory (intermediate components included — the
model records the full path as existing). -/
def makedirs (fs : FS) (d : String) : Except Unit FS :=
  if d = "" then Except.error ()
  else Except.ok { fs with dirs := d :: fs.dirs }

/-- `IOBase._make_parent_directory(self, file_path)`: take the dirname and,
when it does not exist, `os.makedirs` it. -/
def makeParentDirectory (fs : FS) (filePath : String) : Except Unit FS :=
  let directory := dirname filePath
  if fs.pathExists directory then Except.ok fs
  else makedirs fs directory

/-- `open(p, 'w')` followed by `f.write(s)`: create or overwrite the file. -/
def FS.writeFile (fs : FS) (p s : String) : FS :=
  { fs with files := (p, s) :: fs.files.filter (fun f => f.1 ≠ p) }

namespace TextAdapter

/-- `TextIO.save(self, dest_file_path)`: pick the original path when no
destination is given, ensure the parent directory exists, then write the
current content. -/
def save (fs : FS) (originalPath : String) (text : String)
    (destFilePath : Option String) : Except Unit FS :=
  let actualDestFilePath :=
    match destFilePath with
    | none => originalPath
    | some d => d
  match makeParentDirectory fs actualDestFilePath with
  | .error e => .error e
  | .ok fs₁ => .ok (fs₁.writeFile actualDestFilePath text)

end TextAdapter

/-! ## Lemmas: `list(reversed(texts))` + `pop()` consumes `texts` front to back -/

theorem popLast_append_singleton (l : List (Option String)) (a : Option String) :
    popLast (l ++ [a]) = some (a, l) := by
  induction l with
  | nil => rfl
  | cons b l ih =>
      cases l with
      | nil => simp [popLast]
      | cons c l' =>
          simp only [List.cons_append] at ih ⊢
          rw [popLast]
          simp [ih]

theorem popLast_reverse (ts : List (Option String)) :
    popLast ts.reverse =
      match ts with
      | [] => none
      | x :: rest => some (x, rest.reverse) := by
  cases ts with
  | nil => rfl
  | cons x rest =>
      simpa using popLast_append_singleton rest.reverse x

theorem swapIfValid_rev (t : Option String) (ts : List (Option String)) :
    swapIfValid t ts.reverse =
      match swapIfValidF t ts with
      | .error u => .error u
      | .ok (x, l) => .ok (x, l.reverse) := by
  cases t with
  | none => simp [swapIfValid, swapIfValidF]
  | some s =>
      by_cases h : stripEmpty s
      · simp [swapIfValid, swapIfValidF, h]
      · cases ts with
        | nil => simp [swapIfValid, swapIfValidF, h, popLast]
        | cons x rest =>
            cases x with
            | none => simp [swapIfValid, swapIfValidF, h, popLast_append_singleton]
            | some ns => simp [swapIfValid, swapIfValidF, h, popLast_append_singleton]

mutual
theorem swapEl_rev (e : Element) (ts : List (Option String)) :
    swapEl e ts.reverse = revStack (swapElF e ts) := by
  cases e with
  | mk tg ats t cs tl =>
      rw [swapEl, swapElF, swapIfValid_rev t ts]
      cases hf : swapIfValidF t ts with
      | error u => simp [revStack]
      | ok p =>
          obtain ⟨t', ts₁⟩ := p
          simp only [swapSib_rev cs ts₁]
          cases hs : swapSibF cs ts₁ with
          | error cs' => simp [revStack]
          | ok q =>
              obtain ⟨cs', ts₂⟩ := q
              simp only [revStack, swapIfValid_rev tl ts₂]
              cases hg : swapIfValidF tl ts₂ with
              | error u => simp [revStack]
              | ok r =>
                  obtain ⟨tl', ts₃⟩ := r
                  simp [revStack]

theorem swapSib_rev (cs : Siblings) (ts : List (Option String)) :
    swapSib cs ts.reverse = revStack (swapSibF cs ts) := by
  cases cs with
  | nil => simp [swapSib, swapSibF, revStack]
  | cons c cs =>
      rw [swapSib, swapSibF]
      simp only [swapEl_rev c ts]
      cases he : swapElF c ts with
      | error c' => simp [revStack]
      | ok p =>
          obtain ⟨c', ts₁⟩ := p
          simp only [revStack, swapSib_rev cs ts₁]
          cases hs : swapSibF cs ts₁ with
          | error cs' => simp [revStack]
          | ok q =>
              obtain ⟨cs', ts₂⟩ := q
              simp [revStack]
end

/-! ## Lemmas: the flat slot-list specification -/

theorem eligCount_nil : eligCount [] = 0 := rfl

theorem eligCount_cons (t : Option String) (rest : List (Option String)) :
    eligCount (t :: rest) = (if eligible t then 1 else 0) + eligCount rest := by
  by_cases h : eligible t <;> simp [eligCount, List.filter_cons, h, Nat.add_comm]

theorem eligCount_append (l₁ l₂ : List (Option String)) :
    eligCount (l₁ ++ l₂) = eligCount l₁ + eligCount l₂ := by
  simp [eligCount, List.filter_append]

theorem updateSlots_nil (slots : List (Option String)) :
    updateSlots slots [] = slots := by
  induction slots with
  | nil => rfl
  | cons t rest ih => by_cases h : eligible t <;> simp [updateSlots, h, ih]

theorem updateSlots_append (l₁ l₂ : List (Option String)) :
    ∀ ts, updateSlots (l₁ ++ l₂) ts =
      updateSlots l₁ ts ++ updateSlots l₂ (ts.drop (eligCount l₁)) := by
  induction l₁ with
  | nil => intro ts; simp [updateSlots, eligCount_nil]
  | cons t l₁ ih =>
      intro ts
      by_cases h : eligible t
      · cases ts with
        | nil =>
            simp [updateSlots, h, updateSlots_nil]
        | cons newText ts' =>
            simp [updateSlots, h, ih ts', eligCount_cons, Nat.add_comm]
      · simp [updateSlots, h, ih ts, eligCount_cons]

theorem swapIfValidF_spec (t : Option String) (ts : List (Option String)) :
    swapIfValidF t ts =
      if eligible t then
        match ts with
        | [] => Except.error ()
        | newText :: ts' =>
            Except.ok ((match newText with
                        | some ns => some ns
                        | none => t), ts')
      else Except.ok (t, ts) := by
  cases t with
  | none => simp [swapIfValidF, eligible]
  | some s =>
      by_cases h : stripEmpty s
      · simp [swapIfValidF, eligible, h]
      · cases ts with
        | nil => simp [swapIfValidF, eligible, h]
        | cons newText ts' =>
            cases newText <;> simp [swapIfValidF, eligible, h]

/-! ## The master correspondence: tree swap = flat `updateSlots` pass

For every element and every sequence, the front-consuming swap produces (in
its normal return or in its propagated-exception state) exactly the tree
whose slot list is `updateSlots` of the original slot list, with structure
untouched; it returns normally iff the sequence covers all eligible slots,
in which case the unconsumed suffix is `ts.drop (eligCount ...)`. -/

/-- Master characterization of one slot: `swapIfValidF` agrees with
`updateSlots` on the singleton slot list, consumes `eligCount [t]` values
when available and raises otherwise (leaving the slot unchanged). -/
theorem swapSlotF_master (t : Option String) (ts : List (Option String)) :
    ∃ t' : Option String,
      updateSlots [t] ts = [t'] ∧
      (if eligCount [t] ≤ ts.length
       then swapIfValidF t ts = Except.ok (t', ts.drop (eligCount [t]))
       else swapIfValidF t ts = Except.error () ∧ t' = t) := by
  have hc : eligCount [t] = if eligible t then 1 else 0 := by
    rw [eligCount_cons, eligCount_nil]
    omega
  by_cases ht : eligible t
  · cases ts with
    | nil =>
        refine ⟨t, by simp [updateSlots, ht], ?_⟩
        rw [if_neg (by rw [hc, if_pos ht]; simp)]
        exact ⟨by rw [swapIfValidF_spec, if_pos ht], rfl⟩
    | cons newText ts' =>
        refine ⟨(match newText with | some ns => some ns | none => t),
          by simp [updateSlots, ht], ?_⟩
        rw [if_pos (by rw [hc, if_pos ht]; simp)]
        rw [swapIfValidF_spec, if_pos ht, hc, if_pos ht]
        rfl
  · refine ⟨t, by simp [updateSlots, ht], ?_⟩
    rw [if_pos (by rw [hc, if_neg ht]; omega)]
    rw [swapIfValidF_spec, if_neg ht, hc, if_neg ht]
    rfl

/-! ## The master correspondence: tree swap = flat `updateSlots` pass

For every element and every sequence, the front-consuming swap produces (in
its normal return or in its propagated-exception state) exactly the tree
whose slot list is `updateSlots` of the original slot list, with structure
untouched; it returns normally iff the sequence covers all eligible slots,
in which case the unconsumed suffix is `ts.drop (eligCount ...)`. -/

mutual
theorem swapElF_master (e : Element) (ts : List (Option String)) :
    ∃ e' : Element,
      allSlotsEl e' = updateSlots (allSlotsEl e) ts ∧
      eraseTextEl e' = eraseTextEl e ∧
      (if eligCount (allSlotsEl e) ≤ ts.length
       then swapElF e ts = Except.ok (e', ts.drop (eligCount (allSlotsEl e)))
       else swapElF e ts = Except.error e') := by
  cases e with
  | mk tg ats t cs tl =>
      obtain ⟨t', hU₁, hC₁⟩ := swapSlotF_master t ts
      obtain ⟨cs', hA₂, hE₂, hC₂⟩ := swapSibF_master cs (ts.drop (eligCount [t]))
      obtain ⟨tl', hU₃, hC₃⟩ := swapSlotF_master tl
        ((ts.drop (eligCount [t])).drop (eligCount (allSlotsSib cs)))
      have hsplit : updateSlots (allSlotsEl (Element.mk tg ats t cs tl)) ts =
          updateSlots [t] ts ++
            (updateSlots (allSlotsSib cs) (ts.drop (eligCount [t])) ++
             updateSlots [tl]
               ((ts.drop (eligCount [t])).drop (eligCount (allSlotsSib cs)))) := by
        rw [allSlotsEl, ← List.singleton_append, updateSlots_append,
          updateSlots_append]
      have hcount : eligCount (allSlotsEl (Element.mk tg ats t cs tl)) =
          eligCount [t] + eligCount (allSlotsSib cs) + eligCount [tl] := by
        rw [allSlotsEl, ← List.singleton_append, eligCount_append, eligCount_append]
        omega
      have hlen₁ := List.length_drop (eligCount [t]) ts
      have hlen₂ :=
        List.length_drop (eligCount (allSlotsSib cs)) (ts.drop (eligCount [t]))
      by_cases h₁ : eligCount [t] ≤ ts.length
      · rw [if_pos h₁] at hC₁
        by_cases h₂ : eligCount (allSlotsSib cs) ≤ (ts.drop (eligCount [t])).length
        · rw [if_pos h₂] at hC₂
          by_cases h₃ : eligCount [tl] ≤
              ((ts.drop (eligCount [t])).drop (eligCount (allSlotsSib cs))).length
          · rw [if_pos h₃] at hC₃
            refine ⟨.mk tg ats t' cs' tl', ?_, ?_, ?_⟩
            · rw [hsplit, hU₁, ← hA₂, hU₃]
              simp [allSlotsEl]
            · simp [eraseTextEl, hE₂]
            · rw [if_pos (by rw [hcount]; omega)]
              rw [swapElF]
              simp only [hC₁, hC₂, hC₃]
              rw [hcount, List.drop_drop, List.drop_drop, Nat.add_assoc]
          · rw [if_neg h₃] at hC₃
            obtain ⟨hC₃e, htl'⟩ := hC₃
            subst htl'
            refine ⟨.mk tg ats t' cs' tl', ?_, ?_, ?_⟩
            · rw [hsplit, hU₁, ← hA₂, hU₃]
              simp [allSlotsEl]
            · simp [eraseTextEl, hE₂]
            · rw [if_neg (by rw [hcount]; omega)]
              rw [swapElF]
              simp only [hC₁, hC₂, hC₃e]
        · rw [if_neg h₂] at hC₂
          have hnil : (ts.drop (eligCount [t])).drop (eligCount (allSlotsSib cs)) = [] :=
            List.drop_eq_nil_of_le (by omega)
          refine ⟨.mk tg ats t' cs' tl, ?_, ?_, ?_⟩
          · rw [hsplit, hU₁, ← hA₂, hnil, updateSlots_nil]
            simp [allSlotsEl]
          · simp [eraseTextEl, hE₂]
          · rw [if_neg (by rw [hcount]; omega)]
            rw [swapElF]
            simp only [hC₁, hC₂]
      · rw [if_neg h₁] at hC₁
        obtain ⟨hC₁e, ht'⟩ := hC₁
        have hts : ts = [] := by
          have hle : eligCount [t] ≤ 1 := by
            rw [eligCount_cons, eligCount_nil]
            by_cases h : eligible t <;> simp [h]
          have : ts.length = 0 := by omega
          exact List.length_eq_zero.mp this
        subst hts
        refine ⟨.mk tg ats t cs tl, ?_, rfl, ?_⟩
        · rw [updateSlots_nil]
        · rw [if_neg (by rw [hcount]; simp at h₁ ⊢; omega)]
          rw [swapElF]
          simp only [hC₁e]

theorem swapSibF_master (cs : Siblings) (ts : List (Option String)) :
    ∃ cs' : Siblings,
      allSlotsSib cs' = updateSlots (allSlotsSib cs) ts ∧
      eraseTextSib cs' = eraseTextSib cs ∧
      (if eligCount (allSlotsSib cs) ≤ ts.length
       then swapSibF cs ts = Except.ok (cs', ts.drop (eligCount (allSlotsSib cs)))
       else swapSibF cs ts = Except.error cs') := by
  cases cs with
  | nil =>
      refine ⟨.nil, by simp [allSlotsSib, updateSlots], rfl, ?_⟩
      rw [if_pos (by rw [allSlotsSib, eligCount_nil]; omega)]
      rw [swapSibF, allSlotsSib, eligCount_nil]
      rfl
  | cons c cs =>
      obtain ⟨c', hA₁, hE₁, hC₁⟩ := swapElF_master c ts
      obtain ⟨cs', hA₂, hE₂, hC₂⟩ :=
        swapSibF_master cs (ts.drop (eligCount (allSlotsEl c)))
      have hsplit : updateSlots (allSlotsSib (Siblings.cons c cs)) ts =
          updateSlots (allSlotsEl c) ts ++
            updateSlots (allSlotsSib cs) (ts.drop (eligCount (allSlotsEl c))) := by
        rw [allSlotsSib, updateSlots_append]
      have hcount : eligCount (allSlotsSib (Siblings.cons c cs)) =
          eligCount (allSlotsEl c) + eligCount (allSlotsSib cs) := by
        rw [allSlotsSib, eligCount_append]
      have hlen₁ := List.length_drop (eligCount (allSlotsEl c)) ts
      by_cases h₁ : eligCount (allSlotsEl c) ≤ ts.length
      · rw [if_pos h₁] at hC₁
        by_cases h₂ : eligCount (allSlotsSib cs) ≤
            (ts.drop (eligCount (allSlotsEl c))).length
        · rw [if_pos h₂] at hC₂
          refine ⟨.cons c' cs', ?_, ?_, ?_⟩
          · rw [hsplit, ← hA₁, ← hA₂]
            rw [allSlotsSib]
          · simp [eraseTextSib, hE₁, hE₂]
          · rw [if_pos (by rw [hcount]; omega)]
            rw [swapSibF]
            simp only [hC₁, hC₂]
            rw [hcount, List.drop_drop]
        · rw [if_neg h₂] at hC₂
          refine ⟨.cons c' cs', ?_, ?_, ?_⟩
          · rw [hsplit, ← hA₁, ← hA₂]
            rw [allSlotsSib]
          · simp [eraseTextSib, hE₁, hE₂]
          · rw [if_neg (by rw [hcount]; omega)]
            rw [swapSibF]
            simp only [hC₁, hC₂]
      · rw [if_neg h₁] at hC₁
        have hnil : ts.drop (eligCount (allSlotsEl c)) = [] :=
          List.drop_eq_nil_of_le (by omega)
        refine ⟨.cons c' cs, ?_, ?_, ?_⟩
        · rw [hsplit, ← hA₁, hnil, updateSlots_nil]
          rw [allSlotsSib]
        · simp [eraseTextSib, hE₁]
        · rw [if_neg (by rw [hcount]; omega)]
          rw [swapSibF]
          simp only [hC₁]
end

/-! ## Lemmas: `extract` as the eligible filter of the slot list -/

theorem appendIf_acc (t : Option String) (acc : List String) :
    appendIfNotOnlyWhitespace t acc = acc ++ appendIfNotOnlyWhitespace t [] := by
  cases t with
  | none => simp [appendIfNotOnlyWhitespace]
  | some s => by_cases h : stripEmpty s <;> simp [appendIfNotOnlyWhitespace, h]

mutual
theorem extractEl_acc (e : Element) (acc : List String) :
    extractEl e acc = acc ++ extractEl e [] := by
  cases e with
  | mk tg ats t cs tl =>
      rw [extractEl, extractEl]
      rw [appendIf_acc t acc, extractSib_acc cs (acc ++ appendIfNotOnlyWhitespace t []),
        extractSib_acc cs (appendIfNotOnlyWhitespace t []),
        appendIf_acc tl (acc ++ appendIfNotOnlyWhitespace t [] ++ extractSib cs []),
        appendIf_acc tl (appendIfNotOnlyWhitespace t [] ++ extractSib cs [])]
      simp [List.append_assoc]

theorem extractSib_acc (cs : Siblings) (acc : List String) :
    extractSib cs acc = acc ++ extractSib cs [] := by
  cases cs with
  | nil => simp [extractSib]
  | cons c cs =>
      rw [extractSib, extractSib]
      rw [extractEl_acc c acc, extractSib_acc cs (acc ++ extractEl c []),
        extractSib_acc cs (extractEl c [])]
      simp [List.append_assoc]
end

theorem appendIf_nil_eq (t : Option String) :
    appendIfNotOnlyWhitespace t [] = eligFilter [t] := by
  cases t with
  | none => rfl
  | some s =>
      by_cases h : stripEmpty s <;> simp [appendIfNotOnlyWhitespace, eligFilter, h]

theorem eligFilter_append (l₁ l₂ : List (Option String)) :
    eligFilter (l₁ ++ l₂) = eligFilter l₁ ++ eligFilter l₂ := by
  simp [eligFilter, List.filterMap_append]

theorem eligFilter_cons (t : Option String) (rest : List (Option String)) :
    eligFilter (t :: rest) = eligFilter [t] ++ eligFilter rest := by
  cases t with
  | none => simp [eligFilter]
  | some s => by_cases h : stripEmpty s <;> simp [eligFilter, h]

mutual
theorem extractEl_eq_eligFilter (e : Element) :
    extractEl e [] = eligFilter (allSlotsEl e) := by
  cases e with
  | mk tg ats t cs tl =>
      rw [extractEl, extractSib_acc cs (appendIfNotOnlyWhitespace t []),
        appendIf_acc tl (appendIfNotOnlyWhitespace t [] ++ extractSib cs []),
        extractSib_eq_eligFilter cs, appendIf_nil_eq t, appendIf_nil_eq tl]
      conv_rhs => rw [allSlotsEl, eligFilter_cons, eligFilter_append]
      simp [List.append_assoc]

theorem extractSib_eq_eligFilter (cs : Siblings) :
    extractSib cs [] = eligFilter (allSlotsSib cs) := by
  cases cs with
  | nil => rfl
  | cons c cs =>
      rw [extractSib, extractSib_acc cs (extractEl c []),
        extractEl_eq_eligFilter c, extractSib_eq_eligFilter cs,
        allSlotsSib, eligFilter_append]
end

theorem eligFilter_length (l : List (Option String)) :
    (eligFilter l).length = eligCount l := by
  induction l with
  | nil => rfl
  | cons t rest ih =>
      cases t with
      | none => simp [eligFilter, eligCount_cons, eligible] at *; omega
      | some s =>
          by_cases h : stripEmpty s <;>
            simp [eligFilter, eligCount_cons, eligible, h] at * <;> omega

theorem XMLextract_length (e : Element) :
    (XMLextract e).length = eligCount (allSlotsEl e) := by
  rw [XMLextract, extractEl_eq_eligFilter, eligFilter_length]

/-! ## Lemmas: feeding `extract`'s own output back into the swap -/

theorem swapIfValidF_self (t : Option String) (rest : List (Option String)) :
    swapIfValidF t ((appendIfNotOnlyWhitespace t []).map some ++ rest) =
      Except.ok (t, rest) := by
  cases t with
  | none => simp [appendIfNotOnlyWhitespace, swapIfValidF]
  | some s =>
      by_cases h : stripEmpty s <;>
        simp [appendIfNotOnlyWhitespace, swapIfValidF, h]

mutual
theorem swapElF_roundtrip (e : Element) (extra : List (Option String)) :
    swapElF e ((extractEl e []).map some ++ extra) = Except.ok (e, extra) := by
  cases e with
  | mk tg ats t cs tl =>
      have hx : extractEl (Element.mk tg ats t cs tl) [] =
          appendIfNotOnlyWhitespace t [] ++
            (extractSib cs [] ++ appendIfNotOnlyWhitespace tl []) := by
        rw [extractEl, extractSib_acc cs (appendIfNotOnlyWhitespace t []),
          appendIf_acc tl (appendIfNotOnlyWhitespace t [] ++ extractSib cs [])]
        simp [List.append_assoc]
      rw [hx]
      simp only [List.map_append, List.append_assoc]
      rw [swapElF, swapIfValidF_self]
      simp only []
      rw [swapSibF_roundtrip cs ((appendIfNotOnlyWhitespace tl []).map some ++ extra)]
      simp only []
      rw [swapIfValidF_self]

theorem swapSibF_roundtrip (cs : Siblings) (extra : List (Option String)) :
    swapSibF cs ((extractSib cs []).map some ++ extra) = Except.ok (cs, extra) := by
  cases cs with
  | nil => simp [extractSib, swapSibF]
  | cons c cs =>
      rw [extractSib, extractSib_acc cs (extractEl c [])]
      simp only [List.map_append, List.append_assoc]
      rw [swapSibF, swapElF_roundtrip c ((extractSib cs []).map some ++ extra)]
      simp only []
      rw [swapSibF_roundtrip cs extra]
end

/-! ## Pointwise characterization of the flat passes -/

theorem updateSlots_getElem (slots : List (Option String)) :
    ∀ ts j t₀, slots[j]? = some t₀ →
      (updateSlots slots ts)[j]? =
        some (if eligible t₀ then
                match ts[eligCount (slots.take j)]? with
                | some (some ns) => some ns
                | _ => t₀
              else t₀) := by
  induction slots with
  | nil => intro ts j t₀ hj; simp at hj
  | cons t rest ih =>
      intro ts j t₀ hj
      by_cases ht : eligible t
      · cases ts with
        | nil =>
            simp only [List.getElem?_nil]
            simp [updateSlots, ht, hj]
        | cons newText ts' =>
            cases j with
            | zero =>
                rw [List.getElem?_cons_zero] at hj
                cases hj
                cases newText <;> simp [updateSlots, ht, eligCount_nil]
            | succ j' =>
                rw [List.getElem?_cons_succ] at hj
                have hidx : eligCount (t :: rest.take j') =
                    eligCount (rest.take j') + 1 := by
                  rw [eligCount_cons, if_pos ht]
                  omega
                have := ih ts' j' t₀ hj
                simp [updateSlots, ht, hidx, this]
      · cases j with
        | zero =>
            rw [List.getElem?_cons_zero] at hj
            cases hj
            simp [updateSlots, ht]
        | succ j' =>
            rw [List.getElem?_cons_succ] at hj
            have hidx : eligCount (t :: rest.take j') =
                eligCount (rest.take j') := by
              rw [eligCount_cons, if_neg ht]
              omega
            have := ih ts j' t₀ hj
            simp [updateSlots, ht, hidx, this]

theorem zipOverlay_nil (olds : List (Option String)) :
    zipOverlay olds [] = olds := by
  cases olds <;> rfl

theorem zipOverlay_append (l₁ l₂ : List (Option String)) :
    ∀ ts, zipOverlay (l₁ ++ l₂) ts =
      zipOverlay l₁ ts ++ zipOverlay l₂ (ts.drop l₁.length) := by
  induction l₁ with
  | nil => intro ts; simp [zipOverlay]
  | cons o os ih =>
      intro ts
      cases ts with
      | nil => simp [zipOverlay_nil]
      | cons n ns => simp [zipOverlay, ih ns]

theorem zipOverlay_getElem (olds : List (Option String)) :
    ∀ (ts : List (Option String)) (j : Nat) (o : Option String),
      olds[j]? = some o →
      (zipOverlay olds ts)[j]? =
        some ((match ts[j]? with
               | some (some ns) => some ns
               | _ => o : Option String)) := by
  induction olds with
  | nil => intro ts j o hj; simp at hj
  | cons o₀ os ih =>
      intro ts j o hj
      cases ts with
      | nil =>
          simp only [List.getElem?_nil]
          simp [zipOverlay_nil, hj]
      | cons n ns =>
          cases j with
          | zero =>
              rw [List.getElem?_cons_zero] at hj
              cases hj
              cases n <;> simp [zipOverlay]
          | succ j' =>
              rw [List.getElem?_cons_succ] at hj
              simp [zipOverlay, ih ns j' o hj]

/-! ## Lemmas: the spreadsheet swap over the shared-strings tree -/

mutual
theorem ooswapEl_spec (e : Element) (ts : List (Option String)) :
    tTextsEl (ooswapEl e ts).1 = zipOverlay (tTextsEl e) ts ∧
    (ooswapEl e ts).2 = ts.drop (tTextsEl e).length ∧
    eraseTTextEl (ooswapEl e ts).1 = eraseTTextEl e := by
  cases e with
  | mk tg ats t cs tl =>
      by_cases htg : tg = tTag
      · cases ts with
        | nil =>
            obtain ⟨ih1, ih2, ih3⟩ := ooswapSib_spec cs []
            refine ⟨?_, ?_, ?_⟩ <;>
              simp [ooswapEl, htg, tTextsEl, zipOverlay, ih1, ih2, ih3,
                eraseTTextEl, zipOverlay_nil]
        | cons newText ts' =>
            obtain ⟨ih1, ih2, ih3⟩ := ooswapSib_spec cs ts'
            refine ⟨?_, ?_, ?_⟩ <;>
              simp [ooswapEl, htg, tTextsEl, zipOverlay, ih1, ih2, ih3,
                eraseTTextEl]
      · obtain ⟨ih1, ih2, ih3⟩ := ooswapSib_spec cs ts
        refine ⟨?_, ?_, ?_⟩ <;>
          simp [ooswapEl, htg, tTextsEl, zipOverlay, ih1, ih2, ih3, eraseTTextEl]

theorem ooswapSib_spec (cs : Siblings) (ts : List (Option String)) :
    tTextsSib (ooswapSib cs ts).1 = zipOverlay (tTextsSib cs) ts ∧
    (ooswapSib cs ts).2 = ts.drop (tTextsSib cs).length ∧
    eraseTTextSib (ooswapSib cs ts).1 = eraseTTextSib cs := by
  cases cs with
  | nil =>
      refine ⟨?_, ?_, ?_⟩ <;> simp [ooswapSib, tTextsSib, zipOverlay, eraseTTextSib]
  | cons c cs =>
      obtain ⟨i1, i2, i3⟩ := ooswapEl_spec c ts
      obtain ⟨j1, j2, j3⟩ := ooswapSib_spec cs ((ooswapEl c ts).2)
      rw [i2] at j1 j2 j3
      refine ⟨?_, ?_, ?_⟩ <;>
        simp [ooswapSib, tTextsSib, zipOverlay_append, i1, i2, i3, j1, j2, j3,
          eraseTTextSib, List.drop_drop]
end

mutual
theorem ooswapEl_roundtrip (e : Element) (extra : List (Option String)) :
    ooswapEl e (tTextsEl e ++ extra) = (e, extra) := by
  cases e with
  | mk tg ats t cs tl =>
      by_cases htg : tg = tTag
      · have hmatch : (match t with | some ns => some ns | none => t) = t := by
          cases t <;> rfl
        simp [ooswapEl, tTextsEl, htg, hmatch, ooswapSib_roundtrip cs extra]
      · simp [ooswapEl, tTextsEl, htg, ooswapSib_roundtrip cs extra]

theorem ooswapSib_roundtrip (cs : Siblings) (extra : List (Option String)) :
    ooswapSib cs (tTextsSib cs ++ extra) = (cs, extra) := by
  cases cs with
  | nil => simp [ooswapSib, tTextsSib]
  | cons c cs =>
      simp [ooswapSib, tTextsSib, List.append_assoc,
        ooswapEl_roundtrip c (tTextsSib cs ++ extra), ooswapSib_roundtrip cs extra]
end

mutual
theorem xpathTTextEl_eq (e : Element) :
    xpathTTextEl e = (tTextsEl e).filterMap id := by
  cases e with
  | mk tg ats t cs tl =>
      by_cases htg : tg = tTag
      · cases t <;> simp [xpathTTextEl, tTextsEl, htg, xpathTTextSib_eq cs]
      · simp [xpathTTextEl, tTextsEl, htg, xpathTTextSib_eq cs]

theorem xpathTTextSib_eq (cs : Siblings) :
    xpathTTextSib cs = (tTextsSib cs).filterMap id := by
  cases cs with
  | nil => simp [xpathTTextSib, tTextsSib]
  | cons c cs =>
      simp [xpathTTextSib, tTextsSib, xpathTTextEl_eq c, xpathTTextSib_eq cs,
        List.filterMap_append]
end

theorem filterMap_id_map_some (l : List (Option String))
    (h : ∀ x ∈ l, x ≠ none) : (l.filterMap id).map some = l := by
  induction l with
  | nil => rfl
  | cons x rest ih =>
      cases x with
      | none => exact absurd rfl (h none (List.mem_cons_self none rest))
      | some s =>
          simp only [List.filterMap_cons]
          simp [ih (fun y hy => h y (List.mem_cons_of_mem (some s) hy))]

/-! ## Transfer corollaries for the stack-based swap -/

theorem XMLswap_eq_revStack (root : Element) (texts : List (Option String)) :
    XMLswap root texts = revStack (swapElF root texts) := by
  rw [XMLswap, swapEl_rev]

theorem allSlots_XMLswapTree (root : Element) (texts : List (Option String)) :
    allSlotsEl (XMLswapTree root texts) = updateSlots (allSlotsEl root) texts := by
  obtain ⟨e', h1, h2, h3⟩ := swapElF_master root texts
  rw [XMLswapTree, XMLswap_eq_revStack]
  by_cases h : eligCount (allSlotsEl root) ≤ texts.length
  · rw [if_pos h] at h3
    rw [h3]
    simpa [revStack] using h1
  · rw [if_neg h] at h3
    rw [h3]
    simpa [revStack] using h1

theorem eraseText_XMLswapTree (root : Element) (texts : List (Option String)) :
    eraseTextEl (XMLswapTree root texts) = eraseTextEl root := by
  obtain ⟨e', h1, h2, h3⟩ := swapElF_master root texts
  rw [XMLswapTree, XMLswap_eq_revStack]
  by_cases h : eligCount (allSlotsEl root) ≤ texts.length
  · rw [if_pos h] at h3
    rw [h3]
    simpa [revStack] using h2
  · rw [if_neg h] at h3
    rw [h3]
    simpa [revStack] using h2

theorem XMLswap_ok_of_le (root : Element) (texts : List (Option String))
    (h : (XMLextract root).length ≤ texts.length) :
    ∃ e', XMLswap root texts =
        Except.ok (e', (texts.drop (XMLextract root).length).reverse) ∧
      allSlotsEl e' = updateSlots (allSlotsEl root) texts := by
  obtain ⟨e', h1, h2, h3⟩ := swapElF_master root texts
  rw [XMLextract_length] at h ⊢
  rw [if_pos h] at h3
  exact ⟨e', by rw [XMLswap_eq_revStack, h3, revStack], h1⟩

theorem XMLswap_error_of_lt (root : Element) (texts : List (Option String))
    (h : texts.length < (XMLextract root).length) :
    ∃ e', XMLswap root texts = Except.error e' ∧
      allSlotsEl e' = updateSlots (allSlotsEl root) texts := by
  obtain ⟨e', h1, h2, h3⟩ := swapElF_master root texts
  rw [XMLextract_length] at h
  rw [if_neg (by omega)] at h3
  exact ⟨e', by rw [XMLswap_eq_revStack, h3, revStack], h1⟩

theorem stripEmpty_false_of_mem_eligFilter (l : List (Option String)) (s : String)
    (hs : s ∈ eligFilter l) : stripEmpty s = false := by
  rw [eligFilter, List.mem_filterMap] at hs
  obtain ⟨a, _, ha⟩ := hs
  cases a with
  | none => simp at ha
  | some s' =>
      by_cases h : stripEmpty s'
      · simp [h] at ha
      · simp [h] at ha
        subst ha
        simpa using h

/-! ## Concrete documents used by the claim witnesses and counterexamples -/

/-- The spec's example tree `<a>X<b>Y</b>Z</a>`: `a` has own text `X`, its
child `b` has own text `Y` and tail text `Z`. -/
def exampleTree : Element :=
  .mk "a" [] (some "X") (.cons (.mk "b" [] (some "Y") .nil (some "Z")) .nil) none

/-- A tree with exactly one eligible slot. -/
def oneSlotTree : Element :=
  .mk "a" [] (some "X") .nil none

/-- A shared-string entry `<t>…</t>` (or `<t/>` when the content is `none`). -/
def sstEntry (t : Option String) : Element :=
  .mk tTag [] t .nil none

/-- A shared-strings table `<sst>` whose entries carry the given contents. -/
def sstTable (entries : List (Option String)) : Element :=
  .mk "sst" []
    none
    (entries.foldr (fun t acc => Siblings.cons (sstEntry t) acc) Siblings.nil)
    none

/-! ## Claim theorems -/

/-- C1: for every XML tree and every replacement sequence whose length equals
the number of eligible slots, `swap` (which reverses `texts` once and pops
from the end) returns normally with an empty leftover stack, and the slot
list of the resulting tree is the forward-order `updateSlots` pass — the
i-th value of `texts` lands on the i-th slot `extract` would produce, in
original forward document order. -/
theorem C1_swap_extract_correspondence (e : Element) (ts : List (Option String))
    (h : ts.length = (XMLextract e).length) :
    ∃ e', XMLswap e ts = Except.ok (e', []) ∧
      allSlotsEl e' = updateSlots (allSlotsEl e) ts := by
  obtain ⟨e', hok, hslots⟩ := XMLswap_ok_of_le e ts (by omega)
  refine ⟨e', ?_, hslots⟩
  rw [hok, List.drop_eq_nil_of_le (by omega)]
  rfl

/-- Witness for C1: the spec's `<a>X<b>Y</b>Z</a>` example with
`["1","2","3"]`. -/
theorem C1_witness :
    ∃ e', XMLswap exampleTree [some "1", some "2", some "3"] = Except.ok (e', []) ∧
      allSlotsEl e' =
        updateSlots (allSlotsEl exampleTree) [some "1", some "2", some "3"] :=
  C1_swap_extract_correspondence exampleTree [some "1", some "2", some "3"]
    (by decide)

/-- Counterexample to C2 as stated: in a shared-strings table where an empty
entry (`<t/>`, text `none`) precedes a non-empty one, `extract` skips the
empty entry but `swap` zips positionally over all entries, so
`swap(extract())` shifts `"x"` into the empty entry — the in-memory
representation is not restored. -/
theorem C2_counterexample :
    tTextsEl (OOXMLswapTree (sstTable [none, some "x"])
        ((OOXMLextract (sstTable [none, some "x"])).map some)) =
      [some "x", some "x"] ∧
    tTextsEl (sstTable [none, some "x"]) = [none, some "x"] ∧
    ([some "x", some "x"] : List (Option String)) ≠ [none, some "x"] :=
  ⟨rfl, rfl, by decide⟩

/-- C2 (amended): the swap-of-extract round trip restores the in-memory
representation exactly for the PlainText and generic-XML variants, and for
the spreadsheet variant whenever every shared-string entry has a text node
(no empty `<t/>` entry).  Without that condition the round trip is not
guaranteed: an empty entry that precedes a non-empty one makes `swap`'s
positional zip misalign with `extract`'s text-node output, as the
counterexample above shows. -/
theorem C2_roundtrip_amended :
    (∀ s : String,
      TextAdapter.swap (some s) ((TextAdapter.extract s).map some) = Except.ok (some s)) ∧
    (∀ e : Element, XMLswap e ((XMLextract e).map some) = Except.ok (e, [])) ∧
    (∀ tree : Element, (∀ x ∈ tTextsEl tree, x ≠ none) →
      OOXMLswapTree tree ((OOXMLextract tree).map some) = tree) := by
  refine ⟨fun s => rfl, ?_, ?_⟩
  · intro e
    rw [XMLswap_eq_revStack, XMLextract]
    have h := swapElF_roundtrip e []
    rw [List.append_nil] at h
    rw [h, revStack]
    rfl
  · intro tree h
    rw [OOXMLswapTree, OOXMLextract, xpathTTextEl_eq, filterMap_id_map_some _ h]
    have h2 := ooswapEl_roundtrip tree []
    rw [List.append_nil] at h2
    rw [h2]

/-- Witness for C2 (amended): a table with no empty entry round-trips. -/
theorem C2_witness :
    OOXMLswapTree (sstTable [some "foo", some "bar"])
        ((OOXMLextract (sstTable [some "foo", some "bar"])).map some) =
      sstTable [some "foo", some "bar"] :=
  C2_roundtrip_amended.2.2 (sstTable [some "foo", some "bar"]) (by decide)

/-- Counterexample to C3 as stated: on the PlainText variant,
`swap` assigns `texts[0]` unconditionally, so a null value overwrites the
existing content instead of leaving it unchanged. -/
theorem C3_counterexample :
    TextAdapter.swap (some "hello") [none] = Except.ok none ∧
      (none : Option String) ≠ some "hello" :=
  ⟨rfl, by decide⟩

/-- C3 (amended): for the spreadsheet and XML variants a null value at a
consumed sequence position leaves the slot's original content unchanged
while non-null values overwrite their slots (the pointwise characterizations
below); for the PlainText variant `swap` writes `texts[0]` unconditionally,
even when it is null. -/
theorem C3_null_behavior_amended :
    (∀ t : Option String, TextAdapter.swap t [none] = Except.ok none) ∧
    (∀ (tree : Element) (ts : List (Option String)) (j : Nat) (o : Option String),
      (tTextsEl tree)[j]? = some o →
      (tTextsEl (OOXMLswapTree tree ts))[j]? =
        some ((match ts[j]? with
               | some (some ns) => some ns
               | _ => o : Option String))) ∧
    (∀ (e : Element) (ts : List (Option String)) (j : Nat) (t₀ : Option String),
      (allSlotsEl e)[j]? = some t₀ →
      (allSlotsEl (XMLswapTree e ts))[j]? =
        some (if eligible t₀ then
                (match ts[eligCount ((allSlotsEl e).take j)]? with
                 | some (some ns) => some ns
                 | _ => t₀ : Option String)
              else t₀)) := by
  refine ⟨fun t => rfl, ?_, ?_⟩
  · intro tree ts j o hj
    obtain ⟨h1, h2, h3⟩ := ooswapEl_spec tree ts
    rw [OOXMLswapTree, h1]
    exact zipOverlay_getElem (tTextsEl tree) ts j o hj
  · intro e ts j t₀ hj
    rw [allSlots_XMLswapTree]
    exact updateSlots_getElem (allSlotsEl e) ts j t₀ hj

/-- Witness for C3 (amended): a null at position 0 of a spreadsheet swap
leaves entry 0 unchanged. -/
theorem C3_witness :
    (tTextsEl (OOXMLswapTree (sstTable [some "a", some "b"])
        [none, some "c"]))[0]? = some (some "a") := by
  have h := C3_null_behavior_amended.2.1 (sstTable [some "a", some "b"])
    [none, some "c"] 0 (some "a") rfl
  simpa using h

/-- C4: for the XML variant a slot whose content is null, empty, or purely
whitespace never occupies a position of `extract`'s output (extract is the
eligible filter of the slot list, and every extracted string is
non-whitespace), and for every input to `swap` such a slot's content is
unchanged afterwards. -/
theorem C4_whitespace_exclusion :
    (∀ e : Element, XMLextract e = eligFilter (allSlotsEl e)) ∧
    (∀ (e : Element) (s : String), s ∈ XMLextract e → stripEmpty s = false) ∧
    (∀ (e : Element) (ts : List (Option String)) (j : Nat) (t₀ : Option String),
      (allSlotsEl e)[j]? = some t₀ → eligible t₀ = false →
      (allSlotsEl (XMLswapTree e ts))[j]? = some t₀) := by
  refine ⟨?_, ?_, ?_⟩
  · intro e
    rw [XMLextract, extractEl_eq_eligFilter]
  · intro e s hs
    rw [XMLextract, extractEl_eq_eligFilter] at hs
    exact stripEmpty_false_of_mem_eligFilter (allSlotsEl e) s hs
  · intro e ts j t₀ hj helig
    rw [allSlots_XMLswapTree]
    have h := updateSlots_getElem (allSlotsEl e) ts j t₀ hj
    simpa [helig] using h

/-- Witness for C4: the whitespace-only own text of `<a> </a>` survives a
swap with `["Q"]` untouched. -/
theorem C4_witness :
    (allSlotsEl (XMLswapTree (Element.mk "a" [] (some " ") Siblings.nil none)
        [some "Q"]))[0]? = some (some " ") :=
  C4_whitespace_exclusion.2.2 (Element.mk "a" [] (some " ") Siblings.nil none)
    [some "Q"] 0 (some " ") rfl rfl

/-- Counterexample to C5 as stated: a table parsed from entries
`["foo", "", "bar"]` has `text = none` on the empty `<t></t>` entry, and
`//ns:t/text()` skips it: `extract` returns `["foo", "bar"]`, not
`["foo", "", "bar"]`. -/
theorem C5_counterexample :
    OOXMLextract (sstTable [some "foo", none, some "bar"]) = ["foo", "bar"] ∧
      (["foo", "bar"] : List String) ≠ ["foo", "", "bar"] :=
  ⟨rfl, by decide⟩

/-- C5 (amended): spreadsheet `extract` returns the text of exactly those
entries that have a text node, in table order, with no whitespace filtering
(a whitespace-only text is kept); entries with empty content contribute
nothing. -/
theorem C5_extract_amended :
    (∀ tree : Element, OOXMLextract tree = (tTextsEl tree).filterMap id) ∧
    (∀ (tree : Element) (s : String),
      some s ∈ tTextsEl tree → s ∈ OOXMLextract tree) := by
  refine ⟨?_, ?_⟩
  · intro tree
    rw [OOXMLextract, xpathTTextEl_eq]
  · intro tree s hs
    rw [OOXMLextract, xpathTTextEl_eq, List.mem_filterMap]
    exact ⟨some s, hs, rfl⟩

/-- Witness for C5 (amended): the whitespace-only entry `" "` does appear in
`extract`'s output. -/
theorem C5_witness : " " ∈ OOXMLextract (sstTable [some "foo", some " "]) :=
  C5_extract_amended.2 (sstTable [some "foo", some " "]) " " (by decide)

/-- Counterexample to C6 as stated: with one eligible slot and an empty
replacement sequence the tree swap does not silently truncate — `texts.pop()`
raises `IndexError` (`Except.error`, payload the unchanged tree). -/
theorem C6_counterexample :
    XMLswap oneSlotTree [] = Except.error oneSlotTree := rfl

/-- C6 (amended): a sequence longer than the eligible-slot count is handled
silently (the extra values are never consumed; they remain on the stack),
but a shorter sequence raises `IndexError` at the first uncovered eligible
slot instead of truncating; in both cases the processed slots follow the
`updateSlots` pass. -/
theorem C6_length_mismatch_amended :
    (∀ (e : Element) (ts : List (Option String)),
      (XMLextract e).length ≤ ts.length →
      ∃ e', XMLswap e ts =
          Except.ok (e', (ts.drop (XMLextract e).length).reverse) ∧
        allSlotsEl e' = updateSlots (allSlotsEl e) ts) ∧
    (∀ (e : Element) (ts : List (Option String)),
      ts.length < (XMLextract e).length →
      ∃ e', XMLswap e ts = Except.error e' ∧
        allSlotsEl e' = updateSlots (allSlotsEl e) ts) :=
  ⟨XMLswap_ok_of_le, XMLswap_error_of_lt⟩

/-- Witness for C6 (amended): two values on a one-slot tree leave the extra
value unconsumed; an empty sequence on the same tree raises. -/
theorem C6_witness :
    (∃ e', XMLswap oneSlotTree [some "1", some "2"] =
        Except.ok (e', (([some "1", some "2"] : List (Option String)).drop
          (XMLextract oneSlotTree).length).reverse) ∧
      allSlotsEl e' =
        updateSlots (allSlotsEl oneSlotTree) [some "1", some "2"]) ∧
    (∃ e', XMLswap oneSlotTree [] = Except.error e' ∧
      allSlotsEl e' = updateSlots (allSlotsEl oneSlotTree) []) :=
  ⟨C6_length_mismatch_amended.1 oneSlotTree [some "1", some "2"] (by decide),
   C6_length_mismatch_amended.2 oneSlotTree [] (by decide)⟩

/-- C7: for every shared-strings tree and `texts` no longer than the entry
count, `swap` updates exactly the first `len(texts)` entries positionally
(null values leave their entry unchanged), every entry at or past
`len(texts)` keeps its content, and nothing outside the entry texts
changes. -/
theorem C7_partial_swap (tree : Element) (ts : List (Option String))
    (h : ts.length ≤ (tTextsEl tree).length) :
    (∀ (j : Nat) (o : Option String), ts.length ≤ j →
        (tTextsEl tree)[j]? = some o →
        (tTextsEl (OOXMLswapTree tree ts))[j]? = some o) ∧
    (∀ (j : Nat) (o newV : Option String), (tTextsEl tree)[j]? = some o →
        ts[j]? = some newV →
        (tTextsEl (OOXMLswapTree tree ts))[j]? =
          some ((match newV with
                 | some ns => some ns
                 | none => o : Option String))) ∧
    eraseTTextEl (OOXMLswapTree tree ts) = eraseTTextEl tree := by
  obtain ⟨h1, h2, h3⟩ := ooswapEl_spec tree ts
  refine ⟨?_, ?_, ?_⟩
  · intro j o hji hj
    rw [OOXMLswapTree, h1, zipOverlay_getElem (tTextsEl tree) ts j o hj]
    have hnone : ts[j]? = none := by
      rw [List.getElem?_eq_none]
      omega
    rw [hnone]
  · intro j o newV hj hts
    rw [OOXMLswapTree, h1, zipOverlay_getElem (tTextsEl tree) ts j o hj, hts]
    cases newV <;> rfl
  · rw [OOXMLswapTree]
    exact h3

/-- Witness for C7: the spec's `["foo","",​"bar"]`-style table swapped with
`["baz", none]`: entry 0 updated, entry 1 untouched (null), entry 2
untouched (past the sequence). -/
theorem C7_witness :
    (∀ (j : Nat) (o : Option String),
        ([some "baz", none] : List (Option String)).length ≤ j →
        (tTextsEl (sstTable [some "foo", none, some "bar"]))[j]? = some o →
        (tTextsEl (OOXMLswapTree (sstTable [some "foo", none, some "bar"])
          [some "baz", none]))[j]? = some o) ∧
    (∀ (j : Nat) (o newV : Option String),
        (tTextsEl (sstTable [some "foo", none, some "bar"]))[j]? = some o →
        ([some "baz", none] : List (Option String))[j]? = some newV →
        (tTextsEl (OOXMLswapTree (sstTable [some "foo", none, some "bar"])
          [some "baz", none]))[j]? =
          some ((match newV with
                 | some ns => some ns
                 | none => o : Option String))) ∧
    eraseTTextEl (OOXMLswapTree (sstTable [some "foo", none, some "bar"])
        [some "baz", none]) =
      eraseTTextEl (sstTable [some "foo", none, some "bar"]) :=
  C7_partial_swap (sstTable [some "foo", none, some "bar"]) [some "baz", none]
    (by decide)

/-- C8: the tree swap mutates textual content only — erasing all text slots
of the tree after `swap` (whether it returned or raised) gives the same
tag/attribute/child structure as erasing them before. -/
theorem C8_structure_preserved (e : Element) (ts : List (Option String)) :
    eraseTextEl (XMLswapTree e ts) = eraseTextEl e :=
  eraseText_XMLswapTree e ts

/-- C9 evaluation: `save` on a destination with no directory component
computes `os.path.dirname = ""`, finds that `""` does not exist, and calls
`os.makedirs("")`, which raises `FileNotFoundError` — both for an explicit
bare destination and for `save()` with no destination on a document opened
from a bare path.  A destination with a directory component works (the
parent directory is created and the file written). -/
theorem C9_save_bare_path_raises :
    TextAdapter.save ⟨[], [("a.txt", "hello")]⟩ "a.txt" "hello" none =
      Except.error () ∧
    TextAdapter.save ⟨[], []⟩ "a.txt" "hello" (some "out.txt") = Except.error () ∧
    TextAdapter.save ⟨[], []⟩ "a.txt" "hello" (some "out/a.txt") =
      Except.ok ⟨["out"], [("out/a.txt", "hello")]⟩ :=
  ⟨rfl, rfl, rfl⟩

/-- C10: `TextAdapter.swap` with an empty sequence raises `IndexError`
(`texts[0]` is out of range); with at least one element the error branch is
unreachable and the stored segment becomes `texts[0]`. -/
theorem C10_textswap_requires_nonempty :
    (∀ t : Option String, TextAdapter.swap t [] = Except.error ()) ∧
    (∀ (t : Option String) (texts : List (Option String)) (v : Option String),
      texts[0]? = some v → TextAdapter.swap t texts = Except.ok v) := by
  refine ⟨fun t => rfl, ?_⟩
  intro t texts v hv
  rw [TextAdapter.swap, hv]

/-- Witness for C10: a singleton sequence replaces the segment. -/
theorem C10_witness :
    TextAdapter.swap (some "hello") [some "world"] = Except.ok (some "world") :=
  C10_textswap_requires_nonempty.2 (some "hello") [some "world"] (some "world")
    rfl
end Docio
